import Mathlib

/-! Trilinos: explicit-dynamics mini-application driver and the fallback `Teuchos::map`.

A shallow embedding of

* `packages/kokkos/array/usecases/explicit_dynamics/explicit_dynamics_app.hpp`
  (`PerformanceData`, `explicit_dynamics_app`, the repetition loop of `driver`), and
* `packages/teuchos/src/Teuchos_map.hpp` (the list-based `Teuchos::map` compiled under `TFLOP`),

followed by the properties established for them.

Conventions of the embedding.

* A `double` that holds a time is a value of an arbitrary linearly ordered additive group `α`
  (no NaN, exact addition); concrete evaluations use `ℤ`.
* `int` state indices and counters are `Int`; `%` on `int` is the truncating `Int.tmod`.
  No value of the program comes near the range of `int`.
* Objects passed by reference live in a memory indexed by address, so that aliasing is expressible.
* The finite-element kernels, the mesh fixture and `Region` are declared in headers that are not
  part of the embedded sources; a kernel dispatch is recorded in a log, in program order, and
  the mesh fixture is modelled from the specification.
-/

namespace explicit_dynamics

/-! ## `PerformanceData` -/

/-- The six timing fields of `struct PerformanceData`. -/
structure PerformanceData (α : Type) where
  mesh_time : α
  init_time : α
  internal_force_time : α
  minimum_stable_time_step : α
  central_diff : α
  copy_to_host_time : α
deriving DecidableEq

/-- The constructor `PerformanceData()`: every field is initialised to `0`. -/
def PerformanceData.init {α : Type} [Zero α] : PerformanceData α :=
  { mesh_time := 0
    init_time := 0
    internal_force_time := 0
    minimum_stable_time_step := 0
    central_diff := 0
    copy_to_host_time := 0 }

/-- Memory holding `PerformanceData` objects, indexed by address. -/
abbrev Mem (α : Type) := Nat → PerformanceData α

/-- Store `v` at address `a`. -/
def Mem.set {α : Type} (m : Mem α) (a : Nat) (v : PerformanceData α) : Mem α :=
  fun b => if b = a then v else m b

/-- One statement of `best`, `if ( rhs.f < f ) f = rhs.f ;`, for the field `f` read by `get` and
assigned by `put`: both objects are read from the memory as it is when the statement runs. -/
def assign_if_less {α : Type} [LT α] [DecidableRel (fun (x y : α) => x < y)]
    (get : PerformanceData α → α) (put : PerformanceData α → α → PerformanceData α)
    (m : Mem α) (this rhs : Nat) : Mem α :=
  if get (m rhs) < get (m this) then m.set this (put (m this) (get (m rhs))) else m

/-- The method `void PerformanceData::best( const PerformanceData & rhs )`, called on the object
at address `this` with the argument bound to the object at address `rhs` (the two may be the same
object).  The six statements run in order. -/
def PerformanceData.best {α : Type} [LT α] [DecidableRel (fun (x y : α) => x < y)]
    (m : Mem α) (this rhs : Nat) : Mem α :=
  let m := assign_if_less (fun p => p.mesh_time) (fun p v => { p with mesh_time := v }) m this rhs
  let m := assign_if_less (fun p => p.init_time) (fun p v => { p with init_time := v }) m this rhs
  let m := assign_if_less (fun p => p.internal_force_time)
    (fun p v => { p with internal_force_time := v }) m this rhs
  let m := assign_if_less (fun p => p.minimum_stable_time_step)
    (fun p v => { p with minimum_stable_time_step := v }) m this rhs
  let m := assign_if_less (fun p => p.central_diff) (fun p v => { p with central_diff := v })
    m this rhs
  let m := assign_if_less (fun p => p.copy_to_host_time)
    (fun p v => { p with copy_to_host_time := v }) m this rhs
  m

/-! ## `explicit_dynamics_app` -/

/-- The functors handed to `Kokkos::parallel_for` / `Kokkos::parallel_reduce`, with the state
indices (and, for `finish_step`, the extent `ex`) they are constructed with.  The reduction
`minimum_stable_time_step` is dispatched together with its post-process
`set_next_time_step(region, next_state)`. -/
inductive KernelCall where
  | initialize_element
  | initialize_node
  | grad_hgop (current_state previous_state : Int)
  | decomp_rotate (current_state previous_state : Int)
  | divergence (current_state previous_state : Int)
  | minimum_stable_time_step (next_state : Int)
  | finish_step (ex : Nat) (current_state next_state : Int)
deriving DecidableEq

/-- The kernels by name, without their arguments. -/
inductive Kernel where
  | initialize_element
  | initialize_node
  | grad_hgop
  | decomp_rotate
  | divergence
  | minimum_stable_time_step
  | finish_step
deriving DecidableEq

/-- The kernel a dispatch runs. -/
def KernelCall.kernel : KernelCall → Kernel
  | .initialize_element => .initialize_element
  | .initialize_node => .initialize_node
  | .grad_hgop _ _ => .grad_hgop
  | .decomp_rotate _ _ => .decomp_rotate
  | .divergence _ _ => .divergence
  | .minimum_stable_time_step _ => .minimum_stable_time_step
  | .finish_step _ _ _ => .finish_step

/-- What a call of `explicit_dynamics_app` shares with its caller besides `perf`: how many times
the wall clock has been read so far, and the kernels dispatched so far, oldest first. -/
structure World where
  reads : Nat
  calls : List KernelCall
deriving DecidableEq

/-- The local state of `explicit_dynamics_app` while it runs.  `wall_clock` is the
`Kokkos::Impl::Timer`, represented by the clock reading it holds. -/
structure AppState (α : Type) where
  perf : PerformanceData α
  wall_clock : α
  reads : Nat
  calls : List KernelCall
  current_state : Int
  previous_state : Int
  next_state : Int

/-- The constant `const int NumStates = 2`. -/
def NumStates : Int := 2

/-- The constant `const int total_num_steps = 10000`. -/
def total_num_steps : Nat := 10000

/-- Modelled from the spec: `Kokkos::Impl::Timer::reset`, whose header is not among the sources.
The timer measures elapsed (wall-clock) time: `reset` stores the current clock reading.
`clock n` is the value of the `n`-th reading of the wall clock. -/
def Timer_reset {α : Type} (clock : Nat → α) (s : AppState α) : AppState α :=
  { s with wall_clock := clock s.reads, reads := s.reads + 1 }

/-- Modelled from the spec: `Kokkos::Impl::Timer::seconds`, whose header is not among the sources:
the time elapsed since construction or the last `reset`, that is the current clock reading minus
the stored one.  Returns the elapsed time and the state with one more reading taken. -/
def Timer_seconds {α : Type} [Sub α] (clock : Nat → α) (s : AppState α) : α × AppState α :=
  (clock s.reads - s.wall_clock, { s with reads := s.reads + 1 })

/-- Record a kernel dispatch (`Kokkos::parallel_for`, `Kokkos::parallel_reduce`).  The call blocks
until the kernel is done, so the log is in program order. -/
def dispatch {α : Type} (c : KernelCall) (s : AppState α) : AppState α :=
  { s with calls := s.calls ++ [c] }

/-- Lines 151-155, "rotate the states":
`previous_state = current_state; current_state = next_state; ++next_state;
next_state %= NumStates;`. -/
def rotate {α : Type} (s : AppState α) : AppState α :=
  let s := { s with previous_state := s.current_state }
  let s := { s with current_state := s.next_state }
  let s := { s with next_state := s.next_state + 1 }
  let s := { s with next_state := Int.tmod s.next_state NumStates }
  s

/-- The body of the time-stepping loop, lines 151-215.  The CUDA-only block of `deep_copy` calls
dispatches no kernel and reads no clock: the time it takes lies between the last two readings. -/
def time_step {α : Type} [Add α] [Sub α] (clock : Nat → α) (ex : Nat) (s : AppState α) :
    AppState α :=
  let s := rotate s
  let s := Timer_reset clock s
  let s := dispatch (.grad_hgop s.current_state s.previous_state) s
  let s := dispatch (.decomp_rotate s.current_state s.previous_state) s
  let s := dispatch (.divergence s.current_state s.previous_state) s
  let t := Timer_seconds clock s
  let s := { t.2 with perf :=
    { t.2.perf with internal_force_time := t.2.perf.internal_force_time + t.1 } }
  let s := dispatch (.minimum_stable_time_step s.next_state) s
  let t := Timer_seconds clock s
  let s := { t.2 with perf :=
    { t.2.perf with minimum_stable_time_step := t.2.perf.minimum_stable_time_step + t.1 } }
  let s := dispatch (.finish_step ex s.current_state s.next_state) s
  let t := Timer_seconds clock s
  let s := { t.2 with perf := { t.2.perf with central_diff := t.2.perf.central_diff + t.1 } }
  let t := Timer_seconds clock s
  let s := { t.2 with perf :=
    { t.2.perf with copy_to_host_time := t.2.perf.copy_to_host_time + t.1 } }
  s

/-- The loop `for (int step = 0; step < n; ++step)`: the state after `n` passes through the
body. -/
def time_steps {α : Type} [Add α] [Sub α] (clock : Nat → α) (ex : Nat) :
    Nat → AppState α → AppState α
  | 0, s => s
  | n + 1, s => time_step clock ex (time_steps clock ex n s)

/-- Lines 84-145: everything `explicit_dynamics_app` does before the loop.  The timer is
constructed (which reads the clock), the mesh, the region and the host arrays are built (their
constructors are taken to return; `explicit_dynamics_app_call` accounts for the mesh fixture),
`mesh_time` is assigned, the initial velocity is set and copied, the two initialisation kernels are
dispatched, `init_time` is assigned and the three state indices are set to `0`. -/
def app_setup {α : Type} [Sub α] (clock : Nat → α) (perf : PerformanceData α) (w : World) :
    AppState α :=
  let s : AppState α :=
    { perf := perf, wall_clock := clock w.reads, reads := w.reads + 1, calls := w.calls,
      current_state := 0, previous_state := 0, next_state := 0 }
  let t := Timer_seconds clock s
  let s := { t.2 with perf := { t.2.perf with mesh_time := t.1 } }
  let s := dispatch .initialize_element s
  let s := dispatch .initialize_node s
  let t := Timer_seconds clock s
  let s := { t.2 with perf := { t.2.perf with init_time := t.1 } }
  s

/-- What a call of `explicit_dynamics_app` leaves behind: the returned `double`, the record
`perf` it was given by reference, and the world. -/
structure AppResult (α : Type) where
  result : α
  perf : PerformanceData α
  world : World

/-- The function `explicit_dynamics_app( ex, ey, ez, perf )`.  The extents are `size_t`; no
statement of the function inspects them, `ex` is handed on to `finish_step`. -/
def explicit_dynamics_app {α : Type} [Zero α] [Add α] [Sub α] (clock : Nat → α)
    (ex _ey _ez : Nat) (perf : PerformanceData α) (w : World) : AppResult α :=
  let s := time_steps clock ex total_num_steps (app_setup clock perf w)
  { result := 0, perf := s.perf, world := { reads := s.reads, calls := s.calls } }

/-- The triple `(current_state, previous_state, next_state)` that step `k` of the loop works
with (`k = 0` is the first step): the indices right after the rotation that opens the step, in a
call started with `perf` and `w`. -/
def indices_in_step {α : Type} [Zero α] [Add α] [Sub α] (clock : Nat → α) (ex : Nat)
    (perf : PerformanceData α) (w : World) (k : Nat) : Int × Int × Int :=
  let s := rotate (time_steps clock ex k (app_setup clock perf w))
  (s.current_state, s.previous_state, s.next_state)

/-! ## The mesh fixture and the call as a whole -/

/-- The configuration error a call ends with when the mesh cannot be built. -/
inductive ConfigError where
  | zero_elements_along_an_axis
deriving DecidableEq

/-- The structured box mesh the fixture produces, as far as the driver loop needs it: its
extents in elements. -/
structure BoxMesh where
  elems_x : Nat
  elems_y : Nat
  elems_z : Nat
deriving DecidableEq

/-- Modelled from the spec: the constructor `BoxMeshFixture<...> mesh(ex,ey,ez)` of
`BoxMeshFixture.hpp`, which is not among the sources (only its call at line 86 is).  By the spec
the fixture "produces node coordinates and element-to-node connectivity for a structured box mesh
of given extents", the extents are "three positive integers", and "mesh extents producing zero
elements along an axis is rejected (fails with a configuration error) before any kernel
executes". -/
def BoxMeshFixture (ex ey ez : Nat) : Except ConfigError BoxMesh :=
  if ex = 0 ∨ ey = 0 ∨ ez = 0 then .error .zero_elements_along_an_axis
  else .ok { elems_x := ex, elems_y := ey, elems_z := ez }

/-- How a call of `explicit_dynamics_app` ends: rejected with a configuration error, leaving the
world as it is at that point, or returned. -/
inductive Outcome (α : Type) where
  | rejected (e : ConfigError) (w : World)
  | returned (r : AppResult α)

/-- The call `explicit_dynamics_app( ex, ey, ez, perf )` with the mesh fixture taken into
account.  Line 84 constructs the timer, which reads the clock; line 86 constructs the mesh.  When
the fixture rejects the extents the call ends there, before any later statement; otherwise the
call goes on as `explicit_dynamics_app` describes. -/
def explicit_dynamics_app_call {α : Type} [Zero α] [Add α] [Sub α] (clock : Nat → α)
    (ex ey ez : Nat) (perf : PerformanceData α) (w : World) : Outcome α :=
  match BoxMeshFixture ex ey ez with
  | .error e => .rejected e { reads := w.reads + 1, calls := w.calls }
  | .ok _ => .returned (explicit_dynamics_app clock ex ey ez perf w)

/-! ## The repetition loop of `driver` -/

/-- Address of the local `perf` of `driver`. -/
def perf_addr : Nat := 0

/-- Address of the local `best` of `driver`. -/
def best_addr : Nat := 1

/-- The state of `driver` inside its loops: the memory holding its two `PerformanceData` locals,
and the world. -/
structure DriverState (α : Type) where
  mem : Mem α
  world : World

/-- The body of `for(int j = 0; j < runs; j++)`, lines 268-275:
`explicit_dynamics_app(ix,iy,iz,perf); if( j == 0 ) best = perf; else best.best( perf );`. -/
def driver_run {α : Type} [LinearOrderedAddCommGroup α] (clock : Nat → α) (ix iy iz : Nat)
    (j : Nat) (s : DriverState α) : DriverState α :=
  let r := explicit_dynamics_app clock ix iy iz (s.mem perf_addr) s.world
  let mem := s.mem.set perf_addr r.perf
  let mem := if j = 0 then mem.set best_addr (mem perf_addr)
    else PerformanceData.best mem best_addr perf_addr
  { mem := mem, world := r.world }

/-- The loop `for(int j = 0; j < n; j++)` of `driver`: the state after `n` passes. -/
def driver_runs {α : Type} [LinearOrderedAddCommGroup α] (clock : Nat → α) (ix iy iz : Nat) :
    Nat → DriverState α → DriverState α
  | 0, s => s
  | j + 1, s => driver_run clock ix iy iz j (driver_runs clock ix iy iz j s)

/-- One pass through the body of the outer loop of `driver`, lines 259-276, up to the point where
`best` is reported.  `factor` is the value of `static_cast<int>(cbrt(...))`, taken as given.  The
locals `perf` and `best` are default-constructed, then the repetition loop runs `runs` times
(not at all when `runs` is not positive). -/
def driver_case {α : Type} [LinearOrderedAddCommGroup α] (clock : Nat → α) (factor : Nat)
    (runs : Int) (m : Mem α) (w : World) : DriverState α :=
  let ix := 10 * factor
  let iy := factor
  let iz := factor
  let m := m.set perf_addr PerformanceData.init
  let m := m.set best_addr PerformanceData.init
  driver_runs clock ix iy iz runs.toNat { mem := m, world := w }

/-- The record `best` that `driver` reports for one problem size. -/
def driver_best {α : Type} [LinearOrderedAddCommGroup α] (clock : Nat → α) (factor : Nat)
    (runs : Int) (m : Mem α) (w : World) : PerformanceData α :=
  (driver_case clock factor runs m w).mem best_addr

/-! ## Reference quantities the timing claims speak of -/

/-- Clock readings one call of `explicit_dynamics_app` takes: the timer construction, the two
readings before the loop, and five per step (`reset` and four `seconds`). -/
def reads_per_call : Nat := 3 + 5 * total_num_steps

/-- Time spent in phase `phase` of step `step` of a call that starts when `r` readings have been
taken: the difference of the clock readings that enclose the phase.  Phase `0` is the element
kernel chain, `1` the reduction, `2` the node update, `3` the host copy. -/
def phase_elapsed {α : Type} [Sub α] (clock : Nat → α) (r step phase : Nat) : α :=
  clock (r + 3 + 5 * step + phase + 1) - clock (r + 3 + 5 * step + phase)

/-- Total time spent in phase `phase` over all steps of a call that starts at reading `r`. -/
def phase_total {α : Type} [AddCommMonoid α] [Sub α] (clock : Nat → α) (r phase : Nat) : α :=
  Finset.sum (Finset.range total_num_steps) (fun step => phase_elapsed clock r step phase)

/-- Time from the `wall_clock.reset()` that opens step `step` to the end of phase `phase` of that
step, in a call that starts at reading `r`. -/
def since_reset {α : Type} [Sub α] (clock : Nat → α) (r step phase : Nat) : α :=
  clock (r + 3 + 5 * step + phase + 1) - clock (r + 3 + 5 * step)

/-- The six timings measured in repetition `j` alone of `driver`, whose first repetition starts
at reading `r`: what `explicit_dynamics_app` records for that repetition in a zeroed record. -/
def repetition_timing {α : Type} [LinearOrderedAddCommGroup α] (clock : Nat → α)
    (ix iy iz r j : Nat) : PerformanceData α :=
  (explicit_dynamics_app clock ix iy iz PerformanceData.init
    { reads := r + j * reads_per_call, calls := [] }).perf

/-- The five dispatches of one step, in program order, for a step that works with the triple
`t = (current_state, previous_state, next_state)`: the three element kernels are constructed with
`(current_state, previous_state)`, `set_next_time_step` with `next_state`, and `finish_step` with
`ex` and `(current_state, next_state)`. -/
def step_dispatches (ex : Nat) (t : Int × Int × Int) : List KernelCall :=
  [ .grad_hgop t.1 t.2.1,
    .decomp_rotate t.1 t.2.1,
    .divergence t.1 t.2.1,
    .minimum_stable_time_step t.2.2,
    .finish_step ex t.1 t.2.2 ]

/-! ## Concrete inputs used in evaluations -/

/-- A world in which no clock reading has been taken and no kernel dispatched. -/
def fresh_world : World := { reads := 0, calls := [] }

/-- A memory whose objects are all zeroed records. -/
def zero_mem : Mem Int := fun _ => PerformanceData.init

/-- A wall clock on which every reading comes one tick after the previous one, so that every
phase of every step takes one tick. -/
def unit_clock : Nat → Int := fun n => (n : Int)

/-- A wall clock for two calls in a row: two ticks pass between consecutive readings during the
first call (readings `0` to `reads_per_call - 1`), one tick between consecutive readings
afterwards.  It is strictly increasing. -/
def two_speed_clock : Nat → Int :=
  fun n => if n < reads_per_call then 2 * (n : Int) else (reads_per_call : Int) + (n : Int)

end explicit_dynamics

namespace Teuchos

/-! ## The list-based `Teuchos::map` -/

/-- The class `Teuchos::map<Key,T>`: its only data member is `list_`, a `std::list` of pairs.
An iterator is the position of a pair in the list; `list_.end()` is the length of the list. -/
structure map (Key T : Type) where
  list_ : List (Key × T)
deriving DecidableEq

/-- The default constructor `map()`. -/
def map.default_ctor {Key T : Type} : map Key T := { list_ := [] }

/-- The copy constructor `map( const map<Key,T>& map_in ) : list_( map_in.list_ )`. -/
def map.copy_ctor {Key T : Type} (map_in : map Key T) : map Key T := { list_ := map_in.list_ }

/-- The accessor `begin()` (both overloads). -/
def map.begin {Key T : Type} (_m : map Key T) : Nat := 0

/-- The accessor `end()` (both overloads). -/
def map.end_ {Key T : Type} (m : map Key T) : Nat := m.list_.length

/-- The loop `for( itr = begin(); itr != end(); ++itr ) if( (*itr).first == k ) return itr;`
run from position `itr` with the pairs from `itr` on still ahead: `some` of the position it
returns from, `none` when it runs off the end. -/
def map.find_loop {Key T : Type} [DecidableEq Key] (k : Key) : List (Key × T) → Nat → Option Nat
  | [], _ => none
  | p :: rest, itr => if p.1 = k then some itr else map.find_loop k rest (itr + 1)

/-- The non-const `iterator find(const key_type& k)`: the iterator returned, and the map after
the call. -/
def map.find {Key T : Type} [DecidableEq Key] (m : map Key T) (k : Key) : Nat × map Key T :=
  match map.find_loop k m.list_ m.begin with
  | some itr => (itr, m)
  | none => (m.end_, m)

/-- The overload `const_iterator find(const key_type& k) const`. -/
def map.find_const {Key T : Type} [DecidableEq Key] (m : map Key T) (k : Key) : Nat :=
  match map.find_loop k m.list_ m.begin with
  | some itr => itr
  | none => m.end_

/-- The member `mapped_type& operator[]( const key_type& k )`: the position of the pair whose
`second` the returned reference is bound to, and the map after the call.  `T()` is `default`. -/
def map.subscript {Key T : Type} [DecidableEq Key] [Inhabited T] (m : map Key T) (k : Key) :
    Nat × map Key T :=
  let r := m.find k
  let itr := r.1
  let m := r.2
  if itr ≠ m.end_ then (itr, m)
  else
    let m : map Key T := { list_ := m.list_ ++ [(k, default)] }
    (m.list_.length - 1, m)

/-- The value a reference to the `second` of the pair at position `pos` reads. -/
def map.deref {Key T : Type} (m : map Key T) (pos : Nat) : Option T :=
  m.list_[pos]?.map (fun p => p.2)

/-- Position `pos` holds the first pair of the list whose key is `k`: the pair there has key `k`
and no pair before it has. -/
def map.first_with_key {Key T : Type} (m : map Key T) (k : Key) (pos : Nat) : Prop :=
  ∃ p, m.list_[pos]? = some p ∧ p.1 = k ∧
    ∀ j q, j < pos → m.list_[j]? = some q → q.1 ≠ k

/-- The operations a client runs on a map: a call of `operator[]`, a call of `find`, or a copy
construction, after which the copy is the map at hand. -/
inductive Op (Key : Type) where
  | subscript (k : Key)
  | find (k : Key)
  | copy
deriving DecidableEq

/-- The map at hand after one operation on `m`. -/
def map.apply {Key T : Type} [DecidableEq Key] [Inhabited T] (m : map Key T) :
    Op Key → map Key T
  | .subscript k => (m.subscript k).2
  | .find k => (m.find k).2
  | .copy => map.copy_ctor m

/-- The map at hand after the operations `ops`, run in order on `m`. -/
def map.run {Key T : Type} [DecidableEq Key] [Inhabited T] (m : map Key T)
    (ops : List (Op Key)) : map Key T :=
  ops.foldl map.apply m

/-- The map has at most one pair per key: the keys of its pairs, in list order, are pairwise
distinct. -/
def map.unique_keys {Key T : Type} (m : map Key T) : Prop :=
  (m.list_.map (fun p => p.1)).Nodup

end Teuchos

namespace explicit_dynamics

/-! ## The state rotation -/

section rotation

theorem rotate_current {α : Type} (s : AppState α) :
    (rotate s).current_state = s.next_state := rfl

theorem rotate_previous {α : Type} (s : AppState α) :
    (rotate s).previous_state = s.current_state := rfl

theorem rotate_next {α : Type} (s : AppState α) :
    (rotate s).next_state = Int.tmod (s.next_state + 1) NumStates := rfl

variable {α : Type} [AddCommGroup α]

theorem time_step_current (clock : Nat → α) (ex : Nat) (s : AppState α) :
    (time_step clock ex s).current_state = (rotate s).current_state := rfl

theorem time_step_previous (clock : Nat → α) (ex : Nat) (s : AppState α) :
    (time_step clock ex s).previous_state = (rotate s).previous_state := rfl

theorem time_step_next (clock : Nat → α) (ex : Nat) (s : AppState α) :
    (time_step clock ex s).next_state = (rotate s).next_state := rfl

theorem app_setup_indices (clock : Nat → α) (perf : PerformanceData α) (w : World) :
    (app_setup clock perf w).current_state = 0 ∧ (app_setup clock perf w).previous_state = 0 ∧
      (app_setup clock perf w).next_state = 0 :=
  ⟨rfl, rfl, rfl⟩

/-- `++next_state; next_state %= NumStates` on a slot index given as a remainder modulo two. -/
theorem tmod_succ_mod_two (n : Nat) :
    Int.tmod (((n % 2 : Nat) : Int) + 1) NumStates = (((n + 1) % 2 : Nat) : Int) := by
  rcases Nat.mod_two_eq_zero_or_one n with h | h
  · have h1 : (n + 1) % 2 = 1 := by omega
    rw [h, h1]; decide
  · have h1 : (n + 1) % 2 = 0 := by omega
    rw [h, h1]; decide

/-- The three indices held after `n` passes through the loop body. -/
theorem time_steps_indices (clock : Nat → α) (ex : Nat) (perf : PerformanceData α) (w : World)
    (n : Nat) :
    (time_steps clock ex n (app_setup clock perf w)).next_state = ((n % 2 : Nat) : Int) ∧
    (time_steps clock ex n (app_setup clock perf w)).current_state
      = (if n = 0 then 0 else (((n + 1) % 2 : Nat) : Int)) ∧
    (time_steps clock ex n (app_setup clock perf w)).previous_state
      = (if n ≤ 1 then 0 else ((n % 2 : Nat) : Int)) := by
  induction n with
  | zero => exact ⟨rfl, rfl, rfl⟩
  | succ n ih =>
    obtain ⟨hn, hc, hp⟩ := ih
    refine ⟨?_, ?_, ?_⟩
    · show (time_step clock ex _).next_state = _
      rw [time_step_next, rotate_next, hn, tmod_succ_mod_two]
    · show (time_step clock ex _).current_state = _
      rw [time_step_current, rotate_current, hn]
      have : (n + 1 + 1) % 2 = n % 2 := by omega
      simp [this]
    · show (time_step clock ex _).previous_state = _
      rw [time_step_previous, rotate_previous, hc]
      by_cases h0 : n = 0
      · subst h0; simp
      · have h1 : ¬ (n + 1 ≤ 1) := by omega
        simp [h0, h1]

/-- The three indices right after the rotation that opens step `k` (`k = 0` is the first step). -/
theorem rotate_indices (clock : Nat → α) (ex : Nat) (perf : PerformanceData α) (w : World)
    (k : Nat) :
    (rotate (time_steps clock ex k (app_setup clock perf w))).current_state
      = ((k % 2 : Nat) : Int) ∧
    (rotate (time_steps clock ex k (app_setup clock perf w))).next_state
      = (((k + 1) % 2 : Nat) : Int) ∧
    (rotate (time_steps clock ex k (app_setup clock perf w))).previous_state
      = (if k = 0 then 0 else (((k + 1) % 2 : Nat) : Int)) := by
  obtain ⟨hn, hc, _⟩ := time_steps_indices clock ex perf w k
  refine ⟨?_, ?_, ?_⟩
  · rw [rotate_current, hn]
  · rw [rotate_next, hn, tmod_succ_mod_two]
  · rw [rotate_previous, hc]

/-- The closed form of `indices_in_step`. -/
theorem indices_in_step_eq (clock : Nat → α) (ex : Nat) (perf : PerformanceData α) (w : World)
    (k : Nat) :
    indices_in_step clock ex perf w k
      = ((k : Int) % 2, (if k = 0 then 0 else ((k : Int) + 1) % 2), ((k : Int) + 1) % 2) := by
  obtain ⟨hc, hn, hp⟩ := rotate_indices clock ex perf w k
  unfold indices_in_step
  simp only [hc, hn, hp, Prod.mk.injEq]
  refine ⟨by omega, ?_, by omega⟩
  split_ifs
  · rfl
  · omega

/-- C1, counterexample.  In the second step (`k = 1`) of a call of `explicit_dynamics_app` the
indices after the rotation are `current_state = 1`, `previous_state = 0`, `next_state = 0`:
`previous_state` and `next_state` coincide, so the three are not pairwise distinct. -/
theorem rotation_indices_not_pairwise_distinct :
    indices_in_step (fun _ => (0 : Int)) 1 PerformanceData.init { reads := 0, calls := [] } 1
        = (1, 0, 0) ∧
      ¬ (∀ c p n : Int,
          indices_in_step (fun _ => (0 : Int)) 1 PerformanceData.init { reads := 0, calls := [] } 1
            = (c, p, n) → c ≠ p ∧ c ≠ n ∧ p ≠ n) := by
  have h : indices_in_step (fun _ => (0 : Int)) 1 PerformanceData.init
      { reads := 0, calls := [] } 1 = (1, 0, 0) := by decide
  refine ⟨h, ?_⟩
  intro hall
  exact (hall 1 0 0 h).2.2 rfl

/-- C1, as amended.  In every step after the first (step `k + 1`), right after the rotation, the
three indices lie in `{0, ..., NumStates - 1}`, `current_state` differs from `previous_state` and
from `next_state`, and `previous_state` equals `next_state`. -/
theorem rotation_current_differs_from_both (clock : Nat → α) (ex : Nat)
    (perf : PerformanceData α) (w : World) (k : Nat) :
    ∃ c p n : Int, indices_in_step clock ex perf w (k + 1) = (c, p, n) ∧
      (0 ≤ c ∧ c < NumStates) ∧ (0 ≤ p ∧ p < NumStates) ∧ (0 ≤ n ∧ n < NumStates) ∧
      c ≠ p ∧ c ≠ n ∧ p = n := by
  refine ⟨_, _, _, indices_in_step_eq clock ex perf w (k + 1), ?_⟩
  have h0 : ¬ (k + 1 = 0) := by omega
  simp only [h0, if_false, NumStates, and_true]
  push_cast
  omega

/-- C2.  In every step `k` of the loop of `explicit_dynamics_app`, the first included, right
after the rotation `current_state` differs from `next_state`, and both lie in `{0, 1}`. -/
theorem rotation_current_ne_next (clock : Nat → α) (ex : Nat) (perf : PerformanceData α)
    (w : World) (k : Nat) :
    ∃ c p n : Int, indices_in_step clock ex perf w k = (c, p, n) ∧
      c ≠ n ∧ (c = 0 ∨ c = 1) ∧ (n = 0 ∨ n = 1) := by
  refine ⟨_, _, _, indices_in_step_eq clock ex perf w k, ?_⟩
  omega

/-- C3.  The rotation is a function of the step count alone, of period two: whatever the clock,
the extent, the record and the world of the call, step `k` works with
`current_state = k mod 2`, `next_state = (k + 1) mod 2`, and `previous_state = (k + 1) mod 2`
when `k >= 1`, `previous_state = 0` when `k = 0`; and the triple of step `k + 2` is the triple of
step `k` for every `k >= 1` (written `k + 1`). -/
theorem rotation_closed_form_period_two (clock : Nat → α) (ex : Nat) (perf : PerformanceData α)
    (w : World) (k : Nat) :
    indices_in_step clock ex perf w k
        = ((k : Int) % 2, (if k = 0 then 0 else ((k : Int) + 1) % 2), ((k : Int) + 1) % 2) ∧
      indices_in_step clock ex perf w (k + 1 + 2) = indices_in_step clock ex perf w (k + 1) := by
  refine ⟨indices_in_step_eq clock ex perf w k, ?_⟩
  rw [indices_in_step_eq, indices_in_step_eq]
  have h0 : ¬ (k + 1 + 2 = 0) := by omega
  have h1 : ¬ (k + 1 = 0) := by omega
  simp only [h0, h1, if_false]
  push_cast
  refine Prod.ext ?_ (Prod.ext ?_ ?_) <;> simp only <;> omega

end rotation

end explicit_dynamics

namespace explicit_dynamics

/-! ## `PerformanceData::best` -/

theorem Mem.set_same {α : Type} (m : Mem α) (a : Nat) (v : PerformanceData α) :
    (m.set a v) a = v := by
  simp [Mem.set]

theorem Mem.set_other {α : Type} (m : Mem α) (a c : Nat) (v : PerformanceData α) (h : c ≠ a) :
    (m.set a v) c = m c := by
  simp [Mem.set, h]

section best

variable {α : Type} [LinearOrder α]

/-- One statement of `best`.  As long as the object at `b` still has the value it had in `m0`,
the statement leaves it so, puts the minimum into the field of the object at `a`, and touches no
other object. -/
theorem assign_if_less_spec (get : PerformanceData α → α)
    (put : PerformanceData α → α → PerformanceData α) (hput : ∀ p, put p (get p) = p)
    (m0 m : Mem α) (a b : Nat) (hb : m b = m0 b) :
    (assign_if_less get put m a b) b = m0 b ∧
      (assign_if_less get put m a b) a = put (m a) (min (get (m a)) (get (m0 b))) ∧
      ∀ c, c ≠ a → (assign_if_less get put m a b) c = m c := by
  unfold assign_if_less
  by_cases hab : b = a
  · subst hab
    rw [if_neg (lt_irrefl _), ← hb, min_self, hput]
    exact ⟨rfl, rfl, fun _ _ => rfl⟩
  · by_cases hlt : get (m b) < get (m a)
    · rw [if_pos hlt, Mem.set_same, Mem.set_other _ _ _ _ hab, ← hb, min_eq_right (le_of_lt hlt)]
      exact ⟨rfl, rfl, fun c hc => Mem.set_other _ _ _ _ hc⟩
    · rw [if_neg hlt, ← hb, min_eq_left (not_lt.mp hlt)]
      exact ⟨rfl, (hput _).symm, fun _ _ => rfl⟩

/-- The memory after `a.best(b)`: the object at `a` holds the field-wise minima, the object at
`b` and every object other than the one at `a` are as before. -/
theorem best_spec (m : Mem α) (a b : Nat) :
    (PerformanceData.best m a b) a =
      { mesh_time := min (m a).mesh_time (m b).mesh_time
        init_time := min (m a).init_time (m b).init_time
        internal_force_time := min (m a).internal_force_time (m b).internal_force_time
        minimum_stable_time_step :=
          min (m a).minimum_stable_time_step (m b).minimum_stable_time_step
        central_diff := min (m a).central_diff (m b).central_diff
        copy_to_host_time := min (m a).copy_to_host_time (m b).copy_to_host_time } ∧
      (PerformanceData.best m a b) b = m b ∧
      ∀ c, c ≠ a → (PerformanceData.best m a b) c = m c := by
  unfold PerformanceData.best
  obtain ⟨hb1, ha1, hc1⟩ := assign_if_less_spec (fun p => p.mesh_time)
    (fun p v => { p with mesh_time := v }) (fun _ => rfl) m m a b rfl
  obtain ⟨hb2, ha2, hc2⟩ := assign_if_less_spec (fun p => p.init_time)
    (fun p v => { p with init_time := v }) (fun _ => rfl) m _ a b hb1
  obtain ⟨hb3, ha3, hc3⟩ := assign_if_less_spec (fun p => p.internal_force_time)
    (fun p v => { p with internal_force_time := v }) (fun _ => rfl) m _ a b hb2
  obtain ⟨hb4, ha4, hc4⟩ := assign_if_less_spec (fun p => p.minimum_stable_time_step)
    (fun p v => { p with minimum_stable_time_step := v }) (fun _ => rfl) m _ a b hb3
  obtain ⟨hb5, ha5, hc5⟩ := assign_if_less_spec (fun p => p.central_diff)
    (fun p v => { p with central_diff := v }) (fun _ => rfl) m _ a b hb4
  obtain ⟨hb6, ha6, hc6⟩ := assign_if_less_spec (fun p => p.copy_to_host_time)
    (fun p v => { p with copy_to_host_time := v }) (fun _ => rfl) m _ a b hb5
  refine ⟨?_, hb6, ?_⟩
  · simp only [ha6, ha5, ha4, ha3, ha2, ha1]
  · intro c hc
    simp only [hc6 c hc, hc5 c hc, hc4 c hc, hc3 c hc, hc2 c hc, hc1 c hc]

/-- C6.  For records whose fields are totally ordered, after `a.best(b)` each of the six fields
of `a` is the minimum of the value that field of `a` had before and the value of that field of
`b`, and `b` is unchanged; `a` and `b` are any two objects, the same object included. -/
theorem best_fieldwise_min (m : Mem α) (a b : Nat) :
    ((PerformanceData.best m a b) a).mesh_time = min (m a).mesh_time (m b).mesh_time ∧
    ((PerformanceData.best m a b) a).init_time = min (m a).init_time (m b).init_time ∧
    ((PerformanceData.best m a b) a).internal_force_time
      = min (m a).internal_force_time (m b).internal_force_time ∧
    ((PerformanceData.best m a b) a).minimum_stable_time_step
      = min (m a).minimum_stable_time_step (m b).minimum_stable_time_step ∧
    ((PerformanceData.best m a b) a).central_diff = min (m a).central_diff (m b).central_diff ∧
    ((PerformanceData.best m a b) a).copy_to_host_time
      = min (m a).copy_to_host_time (m b).copy_to_host_time ∧
    (PerformanceData.best m a b) b = m b := by
  obtain ⟨ha, hb, _⟩ := best_spec m a b
  rw [ha]
  exact ⟨rfl, rfl, rfl, rfl, rfl, rfl, hb⟩

end best

end explicit_dynamics

namespace explicit_dynamics

/-! ## The loop of `explicit_dynamics_app`: readings, timings and dispatches -/

section loop

variable {α : Type} [AddCommGroup α]

/-- The kernels one step dispatches, given the indices its rotation produced. -/
theorem time_step_calls (clock : Nat → α) (ex : Nat) (s : AppState α) :
    (time_step clock ex s).calls = s.calls ++
      [.grad_hgop (rotate s).current_state (rotate s).previous_state,
       .decomp_rotate (rotate s).current_state (rotate s).previous_state,
       .divergence (rotate s).current_state (rotate s).previous_state,
       .minimum_stable_time_step (rotate s).next_state,
       .finish_step ex (rotate s).current_state (rotate s).next_state] := by
  simp [time_step, dispatch, Timer_reset, Timer_seconds, rotate]

theorem time_step_reads (clock : Nat → α) (ex : Nat) (s : AppState α) :
    (time_step clock ex s).reads = s.reads + 5 := rfl

/-- What one step adds to the record: each of the four counters grows by the time since the
reset that opened the step. -/
theorem time_step_perf (clock : Nat → α) (ex : Nat) (s : AppState α) :
    (time_step clock ex s).perf =
      { mesh_time := s.perf.mesh_time
        init_time := s.perf.init_time
        internal_force_time :=
          s.perf.internal_force_time + (clock (s.reads + 1) - clock s.reads)
        minimum_stable_time_step :=
          s.perf.minimum_stable_time_step + (clock (s.reads + 2) - clock s.reads)
        central_diff := s.perf.central_diff + (clock (s.reads + 3) - clock s.reads)
        copy_to_host_time := s.perf.copy_to_host_time + (clock (s.reads + 4) - clock s.reads) } :=
  rfl

theorem time_steps_reads (clock : Nat → α) (ex : Nat) (n : Nat) (s : AppState α) :
    (time_steps clock ex n s).reads = s.reads + 5 * n := by
  induction n with
  | zero => rfl
  | succ n ih =>
    show (time_step clock ex _).reads = _
    rw [time_step_reads, ih]; ring

/-- The record after `n` steps. -/
theorem time_steps_perf (clock : Nat → α) (ex : Nat) (n : Nat) (s : AppState α) :
    (time_steps clock ex n s).perf =
      { mesh_time := s.perf.mesh_time
        init_time := s.perf.init_time
        internal_force_time := s.perf.internal_force_time +
          Finset.sum (Finset.range n)
            (fun k => clock (s.reads + 5 * k + 0 + 1) - clock (s.reads + 5 * k))
        minimum_stable_time_step := s.perf.minimum_stable_time_step +
          Finset.sum (Finset.range n)
            (fun k => clock (s.reads + 5 * k + 1 + 1) - clock (s.reads + 5 * k))
        central_diff := s.perf.central_diff +
          Finset.sum (Finset.range n)
            (fun k => clock (s.reads + 5 * k + 2 + 1) - clock (s.reads + 5 * k))
        copy_to_host_time := s.perf.copy_to_host_time +
          Finset.sum (Finset.range n)
            (fun k => clock (s.reads + 5 * k + 3 + 1) - clock (s.reads + 5 * k)) } := by
  induction n with
  | zero => simp [time_steps]
  | succ n ih =>
    show (time_step clock ex _).perf = _
    rw [time_step_perf, ih, time_steps_reads]
    simp only [Finset.sum_range_succ, add_assoc, add_zero]

/-- The kernels dispatched by `n` steps, by name. -/
theorem time_steps_kernels (clock : Nat → α) (ex : Nat) (n : Nat) (s : AppState α) :
    ∃ new, (time_steps clock ex n s).calls = s.calls ++ new ∧
      new.map KernelCall.kernel = (List.replicate n
        [Kernel.grad_hgop, Kernel.decomp_rotate, Kernel.divergence,
         Kernel.minimum_stable_time_step, Kernel.finish_step]).flatten := by
  induction n with
  | zero => exact ⟨[], by simp [time_steps], by simp⟩
  | succ n ih =>
    obtain ⟨new, h1, h2⟩ := ih
    refine ⟨new ++
      [.grad_hgop (rotate (time_steps clock ex n s)).current_state
          (rotate (time_steps clock ex n s)).previous_state,
       .decomp_rotate (rotate (time_steps clock ex n s)).current_state
          (rotate (time_steps clock ex n s)).previous_state,
       .divergence (rotate (time_steps clock ex n s)).current_state
          (rotate (time_steps clock ex n s)).previous_state,
       .minimum_stable_time_step (rotate (time_steps clock ex n s)).next_state,
       .finish_step ex (rotate (time_steps clock ex n s)).current_state
          (rotate (time_steps clock ex n s)).next_state], ?_, ?_⟩
    · show (time_step clock ex _).calls = _
      rw [time_step_calls, h1, List.append_assoc]
    · rw [List.map_append, h2, List.replicate_succ', List.flatten_append]
      simp [KernelCall.kernel]

theorem app_setup_reads (clock : Nat → α) (perf : PerformanceData α) (w : World) :
    (app_setup clock perf w).reads = w.reads + 3 := rfl

theorem app_setup_calls (clock : Nat → α) (perf : PerformanceData α) (w : World) :
    (app_setup clock perf w).calls
      = w.calls ++ [KernelCall.initialize_element, KernelCall.initialize_node] := by
  simp [app_setup, dispatch, Timer_seconds]

theorem app_setup_perf (clock : Nat → α) (perf : PerformanceData α) (w : World) :
    (app_setup clock perf w).perf =
      { perf with
        mesh_time := clock (w.reads + 1) - clock w.reads
        init_time := clock (w.reads + 2) - clock w.reads } := rfl

/-- The record a call of `explicit_dynamics_app` leaves in `perf`: `mesh_time` and `init_time`
are assigned, each of the other four fields grows by the sum over the steps of the time since
the reset that opened the step. -/
theorem app_perf (clock : Nat → α) (ex ey ez : Nat) (perf : PerformanceData α) (w : World) :
    (explicit_dynamics_app clock ex ey ez perf w).perf =
      { mesh_time := clock (w.reads + 1) - clock w.reads
        init_time := clock (w.reads + 2) - clock w.reads
        internal_force_time := perf.internal_force_time +
          Finset.sum (Finset.range total_num_steps) (fun k => since_reset clock w.reads k 0)
        minimum_stable_time_step := perf.minimum_stable_time_step +
          Finset.sum (Finset.range total_num_steps) (fun k => since_reset clock w.reads k 1)
        central_diff := perf.central_diff +
          Finset.sum (Finset.range total_num_steps) (fun k => since_reset clock w.reads k 2)
        copy_to_host_time := perf.copy_to_host_time +
          Finset.sum (Finset.range total_num_steps) (fun k => since_reset clock w.reads k 3) } := by
  show (time_steps clock ex total_num_steps (app_setup clock perf w)).perf = _
  rw [time_steps_perf, app_setup_perf, app_setup_reads]
  rfl

theorem app_reads (clock : Nat → α) (ex ey ez : Nat) (perf : PerformanceData α) (w : World) :
    (explicit_dynamics_app clock ex ey ez perf w).world.reads = w.reads + reads_per_call := by
  show (time_steps clock ex total_num_steps (app_setup clock perf w)).reads = _
  rw [time_steps_reads, app_setup_reads, reads_per_call, add_assoc]

/-- The kernels a call of `explicit_dynamics_app` dispatches, by name, whatever its arguments. -/
theorem app_kernels (clock : Nat → α) (ex ey ez : Nat) (perf : PerformanceData α) (w : World) :
    ∃ new, (explicit_dynamics_app clock ex ey ez perf w).world.calls = w.calls ++ new ∧
      new.map KernelCall.kernel = [Kernel.initialize_element, Kernel.initialize_node] ++
        (List.replicate total_num_steps
          [Kernel.grad_hgop, Kernel.decomp_rotate, Kernel.divergence,
           Kernel.minimum_stable_time_step, Kernel.finish_step]).flatten := by
  obtain ⟨new, h1, h2⟩ :=
    time_steps_kernels clock ex total_num_steps (app_setup clock perf w)
  refine ⟨[KernelCall.initialize_element, KernelCall.initialize_node] ++ new, ?_, ?_⟩
  · show (time_steps clock ex total_num_steps (app_setup clock perf w)).calls = _
    rw [h1, app_setup_calls, List.append_assoc]
  · rw [List.map_append, h2]
    rfl

/-- On an empty log, the log a call leaves is not empty and opens with `initialize_element`. -/
theorem app_calls_head (clock : Nat → α) (ex ey ez : Nat) (perf : PerformanceData α) (w : World)
    (hw : w.calls = []) :
    (explicit_dynamics_app clock ex ey ez perf w).world.calls ≠ [] ∧
      (explicit_dynamics_app clock ex ey ez perf w).world.calls.head?
        = some KernelCall.initialize_element := by
  obtain ⟨new, h1, h2⟩ := app_kernels clock ex ey ez perf w
  rw [h1, hw, List.nil_append]
  cases new with
  | nil => cases h2
  | cons c rest =>
    have hc : c.kernel = Kernel.initialize_element := (List.cons.inj h2).1
    clear h1 h2
    refine ⟨List.cons_ne_nil _ _, ?_⟩
    cases c <;> first | rfl | cases hc

/-- With a zero extent the mesh fixture fails. -/
theorem BoxMeshFixture_zero (ex ey ez : Nat) (h : ex = 0 ∨ ey = 0 ∨ ez = 0) :
    BoxMeshFixture ex ey ez = .error ConfigError.zero_elements_along_an_axis := by
  unfold BoxMeshFixture
  rw [if_pos h]

/-- With three positive extents the mesh fixture produces the mesh. -/
theorem BoxMeshFixture_positive (ex ey ez : Nat) (hx : 0 < ex) (hy : 0 < ey) (hz : 0 < ez) :
    BoxMeshFixture ex ey ez = .ok { elems_x := ex, elems_y := ey, elems_z := ez } := by
  unfold BoxMeshFixture
  rw [if_neg (by omega)]

/-- With three positive extents the call is not rejected: it returns what
`explicit_dynamics_app` describes. -/
theorem app_call_positive (clock : Nat → α) (ex ey ez : Nat) (perf : PerformanceData α)
    (w : World) (hx : 0 < ex) (hy : 0 < ey) (hz : 0 < ez) :
    explicit_dynamics_app_call clock ex ey ez perf w
      = .returned (explicit_dynamics_app clock ex ey ez perf w) := by
  unfold explicit_dynamics_app_call
  rw [BoxMeshFixture_positive ex ey ez hx hy hz]

/-- C5.  When one of the extents `ex`, `ey`, `ez` is zero, the call of `explicit_dynamics_app`
is rejected with a configuration error, and at that point the log of kernel dispatches is what it
was before the call: no kernel (`initialize_element`, `initialize_node` or a kernel of a step) has
been invoked, and only the clock reading of the timer construction has been taken. -/
theorem zero_extent_rejected_before_kernels (clock : Nat → α) (ex ey ez : Nat)
    (perf : PerformanceData α) (w : World) (h : ex = 0 ∨ ey = 0 ∨ ez = 0) :
    ∃ e w1, explicit_dynamics_app_call clock ex ey ez perf w = Outcome.rejected e w1 ∧
      w1.calls = w.calls ∧ w1.reads = w.reads + 1 := by
  refine ⟨ConfigError.zero_elements_along_an_axis, { reads := w.reads + 1, calls := w.calls },
    ?_, rfl, rfl⟩
  unfold explicit_dynamics_app_call
  rw [BoxMeshFixture_zero ex ey ez h]

/-- Witness for C5 at the extents `(0, 1, 1)`. -/
theorem zero_extent_rejected_before_kernels_witness :
    ((0 : Nat) = 0 ∨ (1 : Nat) = 0 ∨ (1 : Nat) = 0) ∧
    ∃ e w1, explicit_dynamics_app_call unit_clock 0 1 1 PerformanceData.init fresh_world
        = Outcome.rejected e w1 ∧
      w1.calls = fresh_world.calls ∧ w1.reads = fresh_world.reads + 1 :=
  ⟨Or.inl rfl, zero_extent_rejected_before_kernels unit_clock 0 1 1 PerformanceData.init
    fresh_world (Or.inl rfl)⟩

end loop

end explicit_dynamics

namespace explicit_dynamics

/-! ## Timing: what the counters hold -/

theorem since_reset_unit_clock (r k p : Nat) : since_reset unit_clock r k p = (p : Int) + 1 := by
  unfold since_reset unit_clock
  push_cast
  ring

theorem phase_elapsed_unit_clock (r k p : Nat) : phase_elapsed unit_clock r k p = 1 := by
  unfold phase_elapsed unit_clock
  push_cast
  ring

theorem sum_since_reset_unit_clock (r p : Nat) :
    Finset.sum (Finset.range total_num_steps) (fun k => since_reset unit_clock r k p)
      = 10000 * ((p : Int) + 1) := by
  simp only [since_reset_unit_clock, Finset.sum_const, Finset.card_range, nsmul_eq_mul]
  unfold total_num_steps
  norm_num

theorem phase_total_unit_clock (r p : Nat) : phase_total unit_clock r p = 10000 := by
  unfold phase_total
  simp only [phase_elapsed_unit_clock, Finset.sum_const, Finset.card_range, nsmul_eq_mul]
  unfold total_num_steps
  norm_num

/-- C8, evaluation at a failing input.  On a clock where every phase of every step takes one tick,
a call of `explicit_dynamics_app` on a zeroed record leaves `internal_force_time = 10000`, the
total time of the element kernel chain, but `minimum_stable_time_step = 20000`,
`central_diff = 30000` and `copy_to_host_time = 40000`, whereas the reduction alone, the node
update alone and the host copy alone take `10000` ticks each in total. -/
theorem phase_counters_include_earlier_phases :
    (explicit_dynamics_app unit_clock 10 1 1 PerformanceData.init fresh_world).perf
        = { mesh_time := 1
            init_time := 2
            internal_force_time := 10000
            minimum_stable_time_step := 20000
            central_diff := 30000
            copy_to_host_time := 40000 } ∧
      phase_total unit_clock fresh_world.reads 0 = 10000 ∧
      phase_total unit_clock fresh_world.reads 1 = 10000 ∧
      phase_total unit_clock fresh_world.reads 2 = 10000 ∧
      phase_total unit_clock fresh_world.reads 3 = 10000 := by
  refine ⟨?_, phase_total_unit_clock _ _, phase_total_unit_clock _ _,
    phase_total_unit_clock _ _, phase_total_unit_clock _ _⟩
  rw [app_perf, sum_since_reset_unit_clock, sum_since_reset_unit_clock,
    sum_since_reset_unit_clock, sum_since_reset_unit_clock]
  simp only [PerformanceData.init, unit_clock, fresh_world]
  norm_num

end explicit_dynamics

namespace explicit_dynamics

/-! ## The repetition loop of `driver` -/

section driver

variable {α : Type} [LinearOrderedAddCommGroup α]

theorem driver_runs_two (clock : Nat → α) (ix iy iz : Nat) (s : DriverState α) :
    driver_runs clock ix iy iz 2 s
      = driver_run clock ix iy iz 1 (driver_run clock ix iy iz 0 s) := rfl

/-- The first repetition: `perf` is handed to the call, then copied into `best`. -/
theorem driver_run_zero (clock : Nat → α) (ix iy iz : Nat) (s : DriverState α) :
    driver_run clock ix iy iz 0 s =
      { mem := ((s.mem.set perf_addr
            (explicit_dynamics_app clock ix iy iz (s.mem perf_addr) s.world).perf).set best_addr
            (explicit_dynamics_app clock ix iy iz (s.mem perf_addr) s.world).perf)
        world := (explicit_dynamics_app clock ix iy iz (s.mem perf_addr) s.world).world } := by
  unfold driver_run
  simp only [if_true, Mem.set_same]

/-- A later repetition: `perf` is handed to the call, then `best.best( perf )`. -/
theorem driver_run_succ (clock : Nat → α) (ix iy iz j : Nat) (s : DriverState α) :
    driver_run clock ix iy iz (j + 1) s =
      { mem := PerformanceData.best (s.mem.set perf_addr
            (explicit_dynamics_app clock ix iy iz (s.mem perf_addr) s.world).perf)
            best_addr perf_addr
        world := (explicit_dynamics_app clock ix iy iz (s.mem perf_addr) s.world).world } := by
  unfold driver_run
  simp only [Nat.succ_ne_zero, if_false]

/-- The record `best` after two repetitions: the field-wise minimum of what `perf` holds after
the first call and what it holds after the second call, which was handed the record the first
call left. -/
theorem driver_best_two (clock : Nat → α) (factor : Nat) (m : Mem α) (w : World) :
    driver_best clock factor 2 m w =
      { mesh_time := min
          (explicit_dynamics_app clock (10 * factor) factor factor PerformanceData.init w).perf.mesh_time
          (explicit_dynamics_app clock (10 * factor) factor factor
            (explicit_dynamics_app clock (10 * factor) factor factor PerformanceData.init w).perf
            (explicit_dynamics_app clock (10 * factor) factor factor PerformanceData.init w).world
            ).perf.mesh_time
        init_time := min
          (explicit_dynamics_app clock (10 * factor) factor factor PerformanceData.init w).perf.init_time
          (explicit_dynamics_app clock (10 * factor) factor factor
            (explicit_dynamics_app clock (10 * factor) factor factor PerformanceData.init w).perf
            (explicit_dynamics_app clock (10 * factor) factor factor PerformanceData.init w).world
            ).perf.init_time
        internal_force_time := min
          (explicit_dynamics_app clock (10 * factor) factor factor
            PerformanceData.init w).perf.internal_force_time
          (explicit_dynamics_app clock (10 * factor) factor factor
            (explicit_dynamics_app clock (10 * factor) factor factor PerformanceData.init w).perf
            (explicit_dynamics_app clock (10 * factor) factor factor PerformanceData.init w).world
            ).perf.internal_force_time
        minimum_stable_time_step := min
          (explicit_dynamics_app clock (10 * factor) factor factor
            PerformanceData.init w).perf.minimum_stable_time_step
          (explicit_dynamics_app clock (10 * factor) factor factor
            (explicit_dynamics_app clock (10 * factor) factor factor PerformanceData.init w).perf
            (explicit_dynamics_app clock (10 * factor) factor factor PerformanceData.init w).world
            ).perf.minimum_stable_time_step
        central_diff := min
          (explicit_dynamics_app clock (10 * factor) factor factor
            PerformanceData.init w).perf.central_diff
          (explicit_dynamics_app clock (10 * factor) factor factor
            (explicit_dynamics_app clock (10 * factor) factor factor PerformanceData.init w).perf
            (explicit_dynamics_app clock (10 * factor) factor factor PerformanceData.init w).world
            ).perf.central_diff
        copy_to_host_time := min
          (explicit_dynamics_app clock (10 * factor) factor factor
            PerformanceData.init w).perf.copy_to_host_time
          (explicit_dynamics_app clock (10 * factor) factor factor
            (explicit_dynamics_app clock (10 * factor) factor factor PerformanceData.init w).perf
            (explicit_dynamics_app clock (10 * factor) factor factor PerformanceData.init w).world
            ).perf.copy_to_host_time } := by
  have h2 : (2 : Int).toNat = 2 := rfl
  have hne : perf_addr ≠ best_addr := by decide
  unfold driver_best driver_case
  simp only [h2, driver_runs_two, driver_run_zero, driver_run_succ]
  rw [(best_spec _ best_addr perf_addr).1]
  simp only [Mem.set_same, Mem.set_other _ _ _ _ hne, Mem.set_other _ _ _ _ hne.symm]

end driver

end explicit_dynamics

namespace explicit_dynamics

/-! ## Two repetitions on the two-speed clock -/

theorem since_reset_two_speed_first (k p : Nat) (hk : k < total_num_steps) (hp : p ≤ 3) :
    since_reset two_speed_clock 0 k p = 2 * ((p : Int) + 1) := by
  unfold total_num_steps at hk
  unfold since_reset two_speed_clock reads_per_call total_num_steps
  rw [if_pos (by omega), if_pos (by omega)]
  push_cast
  ring

theorem since_reset_two_speed_second (k p : Nat) :
    since_reset two_speed_clock reads_per_call k p = (p : Int) + 1 := by
  unfold since_reset two_speed_clock
  rw [if_neg (by omega), if_neg (by omega)]
  push_cast
  ring

theorem sum_since_reset_two_speed_first (p : Nat) (hp : p ≤ 3) :
    Finset.sum (Finset.range total_num_steps) (fun k => since_reset two_speed_clock 0 k p)
      = 20000 * ((p : Int) + 1) := by
  rw [Finset.sum_congr rfl
    (fun k hk => since_reset_two_speed_first k p (Finset.mem_range.mp hk) hp)]
  simp only [Finset.sum_const, Finset.card_range, nsmul_eq_mul]
  unfold total_num_steps
  push_cast
  ring

theorem sum_since_reset_two_speed_second (p : Nat) :
    Finset.sum (Finset.range total_num_steps)
        (fun k => since_reset two_speed_clock reads_per_call k p)
      = 10000 * ((p : Int) + 1) := by
  simp only [since_reset_two_speed_second, Finset.sum_const, Finset.card_range, nsmul_eq_mul]
  unfold total_num_steps
  norm_num

theorem two_speed_clock_first (n : Nat) (h : n < 50003) : two_speed_clock n = 2 * (n : Int) := by
  unfold two_speed_clock reads_per_call total_num_steps
  rw [if_pos (by omega)]

theorem two_speed_clock_second (n : Nat) :
    two_speed_clock (reads_per_call + n) = 100006 + (n : Int) := by
  unfold two_speed_clock
  rw [if_neg (by omega)]
  unfold reads_per_call total_num_steps
  push_cast
  ring

/-- What a call that starts at reading `0` of the two-speed clock leaves in a zeroed record. -/
theorem app_perf_two_speed_first (ex ey ez : Nat) (w : World) (hw : w.reads = 0) :
    (explicit_dynamics_app two_speed_clock ex ey ez PerformanceData.init w).perf
      = { mesh_time := 2
          init_time := 4
          internal_force_time := 20000
          minimum_stable_time_step := 40000
          central_diff := 60000
          copy_to_host_time := 80000 } := by
  rw [app_perf, hw, sum_since_reset_two_speed_first 0 (by omega),
    sum_since_reset_two_speed_first 1 (by omega), sum_since_reset_two_speed_first 2 (by omega),
    sum_since_reset_two_speed_first 3 (by omega),
    two_speed_clock_first (0 + 1) (by omega), two_speed_clock_first (0 + 2) (by omega),
    two_speed_clock_first 0 (by omega)]
  simp only [PerformanceData.init]
  norm_num

/-- What a call that starts at reading `reads_per_call` of the two-speed clock leaves in the
record `perf` it is handed. -/
theorem app_perf_two_speed_second (ex ey ez : Nat) (perf : PerformanceData Int) (w : World)
    (hw : w.reads = reads_per_call) :
    (explicit_dynamics_app two_speed_clock ex ey ez perf w).perf
      = { mesh_time := 1
          init_time := 2
          internal_force_time := perf.internal_force_time + 10000
          minimum_stable_time_step := perf.minimum_stable_time_step + 20000
          central_diff := perf.central_diff + 30000
          copy_to_host_time := perf.copy_to_host_time + 40000 } := by
  rw [app_perf, hw, sum_since_reset_two_speed_second, sum_since_reset_two_speed_second,
    sum_since_reset_two_speed_second, sum_since_reset_two_speed_second,
    two_speed_clock_second 1, two_speed_clock_second 2,
    show two_speed_clock reads_per_call = 100006 from by
      have h := two_speed_clock_second 0
      simpa using h]
  norm_num

/-- C7, evaluation at a failing input.  Two repetitions for the size `factor = 1` on the
two-speed clock: the first repetition measures `(2, 4, 20000, 40000, 60000, 80000)`, the second,
taken alone, `(1, 2, 10000, 20000, 30000, 40000)`; the record `best` the driver reports is
`(1, 2, 20000, 40000, 60000, 80000)`, whose four accumulated fields are those of the first,
slower repetition and not the minima. -/
theorem driver_best_keeps_first_repetition :
    driver_best two_speed_clock 1 2 zero_mem fresh_world
        = { mesh_time := 1
            init_time := 2
            internal_force_time := 20000
            minimum_stable_time_step := 40000
            central_diff := 60000
            copy_to_host_time := 80000 } ∧
      repetition_timing two_speed_clock (10 * 1) 1 1 fresh_world.reads 0
        = { mesh_time := 2
            init_time := 4
            internal_force_time := 20000
            minimum_stable_time_step := 40000
            central_diff := 60000
            copy_to_host_time := 80000 } ∧
      repetition_timing two_speed_clock (10 * 1) 1 1 fresh_world.reads 1
        = { mesh_time := 1
            init_time := 2
            internal_force_time := 10000
            minimum_stable_time_step := 20000
            central_diff := 30000
            copy_to_host_time := 40000 } := by
  have hfirst := app_perf_two_speed_first (10 * 1) 1 1 fresh_world rfl
  have hreads : (explicit_dynamics_app two_speed_clock (10 * 1) 1 1 PerformanceData.init
      fresh_world).world.reads = reads_per_call := by
    rw [app_reads]
    exact Nat.zero_add _
  refine ⟨?_, ?_, ?_⟩
  · rw [driver_best_two, app_perf_two_speed_second _ _ _ _ _ hreads, hfirst]
    decide
  · unfold repetition_timing
    exact app_perf_two_speed_first _ _ _ _ (by simp [fresh_world])
  · unfold repetition_timing
    rw [app_perf_two_speed_second _ _ _ _ _ (by simp [fresh_world])]
    simp [PerformanceData.init]

end explicit_dynamics

namespace Teuchos

/-! ## `Teuchos::map`: `find` and `operator[]` -/

section map

variable {Key T : Type} [DecidableEq Key]

/-- The search loop runs off the end exactly when no pair ahead has the key. -/
theorem find_loop_eq_none (k : Key) (l : List (Key × T)) (itr : Nat) :
    map.find_loop k l itr = none ↔ ∀ p ∈ l, p.1 ≠ k := by
  induction l generalizing itr with
  | nil => simp [map.find_loop]
  | cons p rest ih =>
    unfold map.find_loop
    by_cases h : p.1 = k
    · simp [h]
    · simp [h, ih]

/-- When the search loop returns from position `i`, the pair `i - itr` places ahead is the first
one with the key. -/
theorem find_loop_eq_some (k : Key) (l : List (Key × T)) (itr i : Nat)
    (h : map.find_loop k l itr = some i) :
    itr ≤ i ∧ i < itr + l.length ∧ ∃ p, l[i - itr]? = some p ∧ p.1 = k ∧
      ∀ j q, j < i - itr → l[j]? = some q → q.1 ≠ k := by
  induction l generalizing itr with
  | nil => simp [map.find_loop] at h
  | cons p rest ih =>
    unfold map.find_loop at h
    by_cases hp : p.1 = k
    · rw [if_pos hp] at h
      have hi : itr = i := Option.some.inj h
      subst hi
      refine ⟨le_refl _, by simp, p, by simp, hp, ?_⟩
      intro j q hj
      omega
    · rw [if_neg hp] at h
      obtain ⟨h1, h2, q, hq, hqk, hfirst⟩ := ih (itr + 1) h
      have hsub : i - itr = (i - (itr + 1)) + 1 := by omega
      refine ⟨by omega, by simp only [List.length_cons]; omega, q, ?_, hqk, ?_⟩
      · rw [hsub, List.getElem?_cons_succ]
        exact hq
      · intro j r hj hr
        cases j with
        | zero =>
          simp only [List.getElem?_cons_zero, Option.some.injEq] at hr
          subst hr
          exact hp
        | succ j =>
          rw [List.getElem?_cons_succ] at hr
          exact hfirst j r (by omega) hr

theorem find_fst_eq_find_const (m : map Key T) (k : Key) : (m.find k).1 = m.find_const k := by
  unfold map.find map.find_const
  cases map.find_loop k m.list_ m.begin <;> rfl

theorem find_snd (m : map Key T) (k : Key) : (m.find k).2 = m := by
  unfold map.find
  cases map.find_loop k m.list_ m.begin <;> rfl

/-- With no pair of key `k`, `find` returns `end()`. -/
theorem find_of_absent (m : map Key T) (k : Key) (h : ∀ p ∈ m.list_, p.1 ≠ k) :
    (m.find k).1 = m.end_ := by
  unfold map.find
  rw [(find_loop_eq_none k m.list_ m.begin).mpr h]

/-- With a pair of key `k`, `find` returns a position before `end()`, that of the first such
pair. -/
theorem find_of_present (m : map Key T) (k : Key) (h : ∃ p ∈ m.list_, p.1 = k) :
    (m.find k).1 < m.end_ ∧ m.first_with_key k (m.find k).1 := by
  unfold map.find
  cases hf : map.find_loop k m.list_ m.begin with
  | none =>
    obtain ⟨p, hp, hk⟩ := h
    exact absurd hk ((find_loop_eq_none k m.list_ m.begin).mp hf p hp)
  | some i =>
    obtain ⟨_, h2, q, hq, hqk, hfirst⟩ := find_loop_eq_some k m.list_ m.begin i hf
    simp only [map.begin, Nat.zero_add, Nat.sub_zero] at h2 hq hfirst
    exact ⟨h2, q, hq, hqk, hfirst⟩

/-- C10.  `find(k)` leaves the map as it is; the const and the non-const overload return the same
position; that position is `end()` if and only if no pair of the map has key `k`; and when some
pair has key `k` it is the position of the first such pair in list order. -/
theorem find_first_or_end (m : map Key T) (k : Key) :
    (m.find k).2 = m ∧
    (m.find k).1 = m.find_const k ∧
    ((m.find k).1 = m.end_ ↔ ∀ p ∈ m.list_, p.1 ≠ k) ∧
    ((∃ p ∈ m.list_, p.1 = k) → m.first_with_key k (m.find k).1) := by
  refine ⟨find_snd m k, find_fst_eq_find_const m k, ⟨?_, find_of_absent m k⟩,
    fun h => (find_of_present m k h).2⟩
  intro hend p hp hk
  have hlt := (find_of_present m k ⟨p, hp, hk⟩).1
  omega

/-- Witness for C10 on the map `[(1, 10), (2, 20), (2, 30)]` and the key `2`: the position
returned is `1`. -/
theorem find_first_or_end_witness :
    (∃ p ∈ ({ list_ := [(1, 10), (2, 20), (2, 30)] } : map Nat Nat).list_, p.1 = 2) ∧
      (({ list_ := [(1, 10), (2, 20), (2, 30)] } : map Nat Nat).find 2).1 = 1 ∧
      ({ list_ := [(1, 10), (2, 20), (2, 30)] } : map Nat Nat).first_with_key 2
        (({ list_ := [(1, 10), (2, 20), (2, 30)] } : map Nat Nat).find 2).1 :=
  ⟨⟨(2, 20), by simp, rfl⟩, by decide,
    (find_first_or_end ({ list_ := [(1, 10), (2, 20), (2, 30)] } : map Nat Nat) 2).2.2.2
      ⟨(2, 20), by simp, rfl⟩⟩

/-- `operator[]` on a key that is present: the map is left as it is and the reference is to the
pair `find` locates. -/
theorem subscript_of_present [Inhabited T] (m : map Key T) (k : Key)
    (h : ∃ p ∈ m.list_, p.1 = k) : m.subscript k = ((m.find k).1, m) := by
  have hlt := (find_of_present m k h).1
  unfold map.subscript
  simp only [find_snd]
  rw [if_pos (by omega)]

/-- `operator[]` on a key that is absent: one pair `(k, T())` is pushed at the back and the
reference is to it. -/
theorem subscript_of_absent [Inhabited T] (m : map Key T) (k : Key)
    (h : ∀ p ∈ m.list_, p.1 ≠ k) :
    m.subscript k = (m.list_.length, { list_ := m.list_ ++ [(k, default)] }) := by
  have hend := find_of_absent m k h
  unfold map.subscript
  simp only [find_snd]
  rw [if_neg (by simp [hend])]
  simp

/-- C9.  If some pair of `m` has key `k`, `m[k]` leaves the sequence of pairs unchanged and
returns (a reference to) the mapped value of the first such pair.  If no pair has key `k`, `m[k]`
appends exactly one pair `(k, T())` at the end, all earlier pairs staying as they were, and
returns (a reference to) the mapped value of the appended pair. -/
theorem subscript_finds_or_appends [Inhabited T] (m : map Key T) (k : Key) :
    ((∃ p ∈ m.list_, p.1 = k) →
      (m.subscript k).2.list_ = m.list_ ∧
      ∃ p, m.list_[(m.subscript k).1]? = some p ∧ p.1 = k ∧
        (∀ j q, j < (m.subscript k).1 → m.list_[j]? = some q → q.1 ≠ k) ∧
        (m.subscript k).2.deref (m.subscript k).1 = some p.2) ∧
    ((∀ p ∈ m.list_, p.1 ≠ k) →
      (m.subscript k).2.list_ = m.list_ ++ [(k, default)] ∧
      (m.subscript k).1 = m.list_.length ∧
      (m.subscript k).2.deref (m.subscript k).1 = some default) := by
  constructor
  · intro h
    obtain ⟨_, p, hp, hk, hfirst⟩ := find_of_present m k h
    rw [subscript_of_present m k h]
    refine ⟨rfl, p, hp, hk, hfirst, ?_⟩
    simp only [map.deref, hp, Option.map_some']
  · intro h
    rw [subscript_of_absent m k h]
    refine ⟨rfl, rfl, ?_⟩
    simp [map.deref]

/-- Witness for C9 on the map `[(1, 10), (2, 20), (2, 30)]`: the key `2` is present, the key `5`
is absent. -/
theorem subscript_finds_or_appends_witness :
    ((∃ p ∈ ({ list_ := [(1, 10), (2, 20), (2, 30)] } : map Nat Nat).list_, p.1 = 2) ∧
      (({ list_ := [(1, 10), (2, 20), (2, 30)] } : map Nat Nat).subscript 2).2.list_
        = [(1, 10), (2, 20), (2, 30)]) ∧
    ((∀ p ∈ ({ list_ := [(1, 10), (2, 20), (2, 30)] } : map Nat Nat).list_, p.1 ≠ 5) ∧
      (({ list_ := [(1, 10), (2, 20), (2, 30)] } : map Nat Nat).subscript 5).2.list_
        = [(1, 10), (2, 20), (2, 30)] ++ [(5, default)]) :=
  ⟨⟨⟨(2, 20), by simp, rfl⟩,
      ((subscript_finds_or_appends ({ list_ := [(1, 10), (2, 20), (2, 30)] } : map Nat Nat) 2).1
        ⟨(2, 20), by simp, rfl⟩).1⟩,
    ⟨by decide,
      ((subscript_finds_or_appends ({ list_ := [(1, 10), (2, 20), (2, 30)] } : map Nat Nat) 5).2
        (by decide)).1⟩⟩

end map

end Teuchos

namespace explicit_dynamics

/-! ## The state indices the kernels are dispatched with -/

section dispatch_indices

variable {α : Type} [AddCommGroup α]

/-- The dispatches of one pass through the loop body are `step_dispatches` of the triple its
rotation produced. -/
theorem time_step_calls_eq (clock : Nat → α) (ex : Nat) (s : AppState α) :
    (time_step clock ex s).calls = s.calls ++ step_dispatches ex
      ((rotate s).current_state, (rotate s).previous_state, (rotate s).next_state) :=
  time_step_calls clock ex s

/-- The log after `n` steps: step after step, the dispatches of the triple the step's rotation
produced. -/
theorem time_steps_calls (clock : Nat → α) (ex : Nat) (n : Nat) (s : AppState α) :
    (time_steps clock ex n s).calls = s.calls ++
      ((List.range n).map (fun k => step_dispatches ex
        ((rotate (time_steps clock ex k s)).current_state,
         (rotate (time_steps clock ex k s)).previous_state,
         (rotate (time_steps clock ex k s)).next_state))).flatten := by
  induction n with
  | zero => simp [time_steps]
  | succ n ih =>
    show (time_step clock ex _).calls = _
    rw [time_step_calls_eq, ih, List.range_succ, List.map_append, List.flatten_append,
      List.map_singleton, List.flatten_singleton, List.append_assoc]

/-- The log a call of `explicit_dynamics_app` leaves. -/
theorem app_calls (clock : Nat → α) (ex ey ez : Nat) (perf : PerformanceData α) (w : World) :
    (explicit_dynamics_app clock ex ey ez perf w).world.calls =
      w.calls ++ [KernelCall.initialize_element, KernelCall.initialize_node] ++
        ((List.range total_num_steps).map
          (fun k => step_dispatches ex (indices_in_step clock ex perf w k))).flatten := by
  show (time_steps clock ex total_num_steps (app_setup clock perf w)).calls = _
  rw [time_steps_calls, app_setup_calls]
  rfl

/-- C11.  The log of a call of `explicit_dynamics_app` is the two initialisation kernels followed,
for each step `k` below `total_num_steps` in turn, by `grad_hgop`, `decomp_rotate` and
`divergence` constructed with the step's `(current_state, previous_state)`, the
`minimum_stable_time_step` reduction whose `set_next_time_step` is constructed with the step's
`next_state`, and `finish_step` constructed with the step's `(current_state, next_state)`; the
triple of a step is the one its opening rotation produces, which is
`(k mod 2, (k + 1) mod 2, (k + 1) mod 2)` with `previous_state = 0` in step `0`. -/
theorem kernels_get_the_rotated_indices (clock : Nat → α) (ex ey ez : Nat)
    (perf : PerformanceData α) (w : World) :
    (explicit_dynamics_app clock ex ey ez perf w).world.calls =
        w.calls ++ [KernelCall.initialize_element, KernelCall.initialize_node] ++
          ((List.range total_num_steps).map
            (fun k => step_dispatches ex (indices_in_step clock ex perf w k))).flatten ∧
      (∀ k, step_dispatches ex (indices_in_step clock ex perf w k) =
        [ KernelCall.grad_hgop (indices_in_step clock ex perf w k).1
            (indices_in_step clock ex perf w k).2.1,
          KernelCall.decomp_rotate (indices_in_step clock ex perf w k).1
            (indices_in_step clock ex perf w k).2.1,
          KernelCall.divergence (indices_in_step clock ex perf w k).1
            (indices_in_step clock ex perf w k).2.1,
          KernelCall.minimum_stable_time_step (indices_in_step clock ex perf w k).2.2,
          KernelCall.finish_step ex (indices_in_step clock ex perf w k).1
            (indices_in_step clock ex perf w k).2.2 ]) ∧
      (∀ k, indices_in_step clock ex perf w k
        = ((k : Int) % 2, (if k = 0 then 0 else ((k : Int) + 1) % 2), ((k : Int) + 1) % 2)) :=
  ⟨app_calls clock ex ey ez perf w, fun _ => rfl, indices_in_step_eq clock ex perf w⟩

end dispatch_indices

end explicit_dynamics

namespace Teuchos

/-! ## `Teuchos::map`: key uniqueness -/

section unique

/-- In a list whose keys are pairwise distinct, two positions holding the same key are the same
position. -/
theorem position_unique_of_nodup {Key T : Type} (l : List (Key × T)) (h : (l.map (fun p => p.1)).Nodup)
    (i j : Nat) (p q : Key × T) (hi : l[i]? = some p) (hj : l[j]? = some q)
    (hk : p.1 = q.1) : i = j := by
  induction l generalizing i j with
  | nil => simp at hi
  | cons a rest ih =>
    rw [List.map_cons, List.nodup_cons] at h
    obtain ⟨hnot, hrest⟩ := h
    cases i with
    | zero =>
      cases j with
      | zero => rfl
      | succ j =>
        rw [List.getElem?_cons_zero] at hi
        rw [List.getElem?_cons_succ] at hj
        have ha : a = p := Option.some.inj hi
        subst ha
        exact absurd (List.mem_map.mpr ⟨q, List.getElem?_mem hj, hk.symm⟩) hnot
    | succ i =>
      cases j with
      | zero =>
        rw [List.getElem?_cons_zero] at hj
        rw [List.getElem?_cons_succ] at hi
        have ha : a = q := Option.some.inj hj
        subst ha
        exact absurd (List.mem_map.mpr ⟨p, List.getElem?_mem hi, hk⟩) hnot
      | succ j =>
        rw [List.getElem?_cons_succ] at hi hj
        rw [ih hrest i j hi hj]

theorem default_ctor_unique_keys {Key T : Type} :
    (map.default_ctor : map Key T).unique_keys := by
  simp [map.unique_keys, map.default_ctor]

theorem copy_ctor_eq {Key T : Type} (m : map Key T) : map.copy_ctor m = m := rfl

variable {Key T : Type} [DecidableEq Key]

/-- A call of `operator[]` keeps the keys pairwise distinct: it appends a pair only for a key no
pair has. -/
theorem subscript_unique_keys [Inhabited T] (m : map Key T) (k : Key) (h : m.unique_keys) :
    (m.subscript k).2.unique_keys := by
  by_cases hk : ∃ p ∈ m.list_, p.1 = k
  · rw [subscript_of_present m k hk]
    exact h
  · have habs : ∀ p ∈ m.list_, p.1 ≠ k := fun p hp hpk => hk ⟨p, hp, hpk⟩
    rw [subscript_of_absent m k habs]
    unfold map.unique_keys at h ⊢
    rw [List.map_append, List.nodup_append]
    refine ⟨h, by simp, ?_⟩
    intro x hx hx2
    obtain ⟨p, hp, hpx⟩ := List.mem_map.mp hx
    have hxk : x = k := by simpa using hx2
    exact habs p hp (hpx.trans hxk)

/-- Each operation keeps the keys pairwise distinct. -/
theorem apply_unique_keys [Inhabited T] (m : map Key T) (op : Op Key) (h : m.unique_keys) :
    (m.apply op).unique_keys := by
  cases op with
  | subscript k => exact subscript_unique_keys m k h
  | find k =>
    show (m.find k).2.unique_keys
    rw [find_snd]
    exact h
  | copy => exact h

/-- Any sequence of operations keeps the keys pairwise distinct. -/
theorem run_unique_keys [Inhabited T] (ops : List (Op Key)) (m : map Key T)
    (h : m.unique_keys) : (m.run ops).unique_keys := by
  induction ops generalizing m with
  | nil => exact h
  | cons op rest ih => exact ih (m.apply op) (apply_unique_keys m op h)

/-- In a map with pairwise distinct keys, every pair with key `k` sits at the position `find(k)`
returns. -/
theorem find_only_pair (m : map Key T) (h : m.unique_keys) (k : Key) (j : Nat) (q : Key × T)
    (hq : m.list_[j]? = some q) (hqk : q.1 = k) : j = (m.find k).1 := by
  obtain ⟨_, p, hp, hpk, _⟩ := find_of_present m k ⟨q, List.getElem?_mem hq, hqk⟩
  exact position_unique_of_nodup m.list_ h j _ q p hq hp (hqk.trans hpk.symm)

/-- C12.  Every map reached from the default-constructed map by a finite sequence of `operator[]`
calls, `find` calls and copy constructions has at most one pair per key (its keys are pairwise
distinct), so that for every key `k` any pair with key `k` is the pair at the position `find(k)`
returns. -/
theorem reachable_map_keys_unique [Inhabited T] (ops : List (Op Key)) :
    ((map.default_ctor : map Key T).run ops).unique_keys ∧
    ∀ (k : Key) (i j : Nat) (p q : Key × T),
      ((map.default_ctor : map Key T).run ops).list_[i]? = some p →
      ((map.default_ctor : map Key T).run ops).list_[j]? = some q →
      p.1 = k → q.1 = k →
      i = j ∧ j = (((map.default_ctor : map Key T).run ops).find k).1 := by
  have h := run_unique_keys ops (map.default_ctor : map Key T) default_ctor_unique_keys
  refine ⟨h, ?_⟩
  intro k i j p q hp hq hpk hqk
  exact ⟨position_unique_of_nodup _ h i j p q hp hq (hpk.trans hqk.symm),
    find_only_pair _ h k j q hq hqk⟩

/-- Witness for C12: after `m[1]`, `m[2]`, `find(1)`, a copy and `m[1]` again the map holds the
pairs `(1, T())` and `(2, T())`, and the pair with key `2` sits at position `1`, where `find(2)`
points. -/
theorem reachable_map_keys_unique_witness :
    ((map.default_ctor : map Nat Nat).run
        [Op.subscript 1, Op.subscript 2, Op.find 1, Op.copy, Op.subscript 1]).list_
        = [(1, 0), (2, 0)] ∧
      ((map.default_ctor : map Nat Nat).run
        [Op.subscript 1, Op.subscript 2, Op.find 1, Op.copy, Op.subscript 1]).unique_keys ∧
      (1 = 1 ∧ 1 = (((map.default_ctor : map Nat Nat).run
        [Op.subscript 1, Op.subscript 2, Op.find 1, Op.copy, Op.subscript 1]).find 2).1) :=
  ⟨by decide,
    (reachable_map_keys_unique
      [Op.subscript 1, Op.subscript 2, Op.find 1, Op.copy, Op.subscript 1]).1,
    (reachable_map_keys_unique
      [Op.subscript 1, Op.subscript 2, Op.find 1, Op.copy, Op.subscript 1]).2
      2 1 1 (2, 0) (2, 0) (by decide) (by decide) rfl rfl⟩

end unique

end Teuchos
